import Mathlib

/-!
Verification of the `TodoList` contract (src/contracts/TodoList.sol).

The contract stores a dynamic array `todos` of `Todo { text, completed }`,
emits `TodoAdded` / `TodoToggled` / `TodoRemoved` events, and exposes
`addTodo`, `toggleTodo`, `removeTodo`, `getTodos`, `getTodoCount`.
We embed the contract state as a list of entries together with the
append-only event log, and each external function as a Lean function on
that state.  `toggleTodo` and `removeTodo` guard with
`require(_index < todos.length, "Todo does not exist")`; a failed
`require` reverts, which we embed as `Except.error` (the caller's state
is unchanged, captured by `applyOp` below).  Indices have Solidity type
`uint256`, embedded as `Nat`.
-/

/-- `struct Todo { string text; bool completed; }` -/
structure Todo where
  text : String
  completed : Bool
deriving DecidableEq, Repr

/-- The three contract events, with their payloads. -/
inductive Event where
  | TodoAdded (id : Nat) (text : String)
  | TodoToggled (id : Nat) (completed : Bool)
  | TodoRemoved (id : Nat)
deriving DecidableEq, Repr

/-- Contract storage (`Todo[] public todos`) plus the emitted event log,
in emission order. -/
structure ContractState where
  todos : List Todo
  events : List Event
deriving DecidableEq, Repr

/-- The store begins empty: no entries, no events. -/
def initialState : ContractState := ⟨[], []⟩

/-- The revert reason used by both `require` statements in the contract. -/
def outOfRangeMsg : String := "Todo does not exist"

/-- `addTodo`: pushes `Todo(_text, false)` and emits
`TodoAdded(todos.length - 1, _text)` (the length after the push, minus
one, i.e. the new entry's position).  The Solidity function declares no
return value. -/
def addTodo (s : ContractState) (text : String) : ContractState :=
  let todos := s.todos ++ [⟨text, false⟩]
  { todos := todos
    events := s.events ++ [Event.TodoAdded (todos.length - 1) text] }

/-- `toggleTodo`: requires `_index < todos.length`, negates
`todos[_index].completed`, and emits `TodoToggled(_index,
todos[_index].completed)` with the post-assignment value. -/
def toggleTodo (s : ContractState) (i : Nat) : Except String ContractState :=
  if h : i < s.todos.length then
    let t := s.todos.get ⟨i, h⟩
    Except.ok
      { todos := s.todos.set i ⟨t.text, !t.completed⟩
        events := s.events ++ [Event.TodoToggled i (!t.completed)] }
  else
    Except.error outOfRangeMsg

/-- The shifting loop of `removeTodo`:
`for (uint i = _index; i < todos.length - 1; i++) todos[i] = todos[i+1];`.
The guard `i < todos.length - 1` on `uint` values with `todos.length ≥ 1`
is `i + 1 < todos.length`. -/
def removeLoop (todos : List Todo) (i : Nat) : List Todo :=
  if h : i + 1 < todos.length then
    removeLoop (todos.set i (todos.get ⟨i + 1, h⟩)) (i + 1)
  else
    todos
termination_by todos.length - i
decreasing_by simp [List.length_set]; omega

/-- Number of iterations the shifting loop performs. -/
def removeLoopIters (todos : List Todo) (i : Nat) : Nat :=
  if h : i + 1 < todos.length then
    removeLoopIters (todos.set i (todos.get ⟨i + 1, h⟩)) (i + 1) + 1
  else
    0
termination_by todos.length - i
decreasing_by simp [List.length_set]; omega

/-- `removeTodo`: requires `_index < todos.length`, runs the shifting
loop, pops the last slot, and emits `TodoRemoved(_index)`. -/
def removeTodo (s : ContractState) (i : Nat) : Except String ContractState :=
  if i < s.todos.length then
    Except.ok
      { todos := (removeLoop s.todos i).dropLast
        events := s.events ++ [Event.TodoRemoved i] }
  else
    Except.error outOfRangeMsg

/-- `getTodos`: returns the whole array (a snapshot copy). -/
def getTodos (s : ContractState) : List Todo := s.todos

/-- `getTodoCount`: returns `todos.length`. -/
def getTodoCount (s : ContractState) : Nat := s.todos.length

/-- One external call to a mutating function of the contract. -/
inductive Op where
  | add (text : String)
  | toggle (i : Nat)
  | remove (i : Nat)
deriving DecidableEq, Repr

/-- Transaction semantics of one call: a revert (`Except.error`) leaves
the state — storage and event log — exactly as it was. -/
def applyOp (s : ContractState) : Op → ContractState
  | Op.add t => addTodo s t
  | Op.toggle i =>
    match toggleTodo s i with
    | Except.ok s2 => s2
    | Except.error _ => s
  | Op.remove i =>
    match removeTodo s i with
    | Except.ok s2 => s2
    | Except.error _ => s

/-- Run a sequence of calls from the empty store. -/
def execOps (ops : List Op) : ContractState :=
  ops.foldl applyOp initialState

/-- Modelled from the spec (event-fidelity replay rules): an `Added`
event inserts `{text, completed=false}` at the tail, a `Toggled` event
sets the completed flag at its recorded position to the recorded
resulting value, a `Removed` event deletes the entry at its recorded
position and compacts. -/
def replayEvent (l : List Todo) : Event → List Todo
  | Event.TodoAdded _ text => l ++ [⟨text, false⟩]
  | Event.TodoToggled i b =>
    match l.get? i with
    | some t => l.set i ⟨t.text, b⟩
    | none => l
  | Event.TodoRemoved i => l.eraseIdx i

/-- Modelled from the spec: replaying the event log in order from the
empty sequence. -/
def replay (evs : List Event) : List Todo :=
  evs.foldl replayEvent []

/-! ### Characterisation of the shifting loop -/

theorem removeLoop_eq (l : List Todo) (i : Nat) (h : i < l.length) :
    removeLoop l i = (l.take i ++ l.drop (i + 1)) ++ l.drop (l.length - 1) := by
  rw [removeLoop]
  by_cases h2 : i + 1 < l.length
  · rw [dif_pos h2]
    rw [removeLoop_eq (l.set i (l.get ⟨i + 1, h2⟩)) (i + 1)
      (by simpa using h2)]
    have hd1 : (l.set i (l.get ⟨i + 1, h2⟩)).drop (i + 2) = l.drop (i + 2) := by
      rw [List.drop_set, if_pos (by omega)]
    have hlen : (l.set i (l.get ⟨i + 1, h2⟩)).length = l.length :=
      List.length_set l i _
    have hd2 : (l.set i (l.get ⟨i + 1, h2⟩)).drop
        ((l.set i (l.get ⟨i + 1, h2⟩)).length - 1) = l.drop (l.length - 1) := by
      rw [hlen, List.drop_set, if_pos (by omega)]
    have ht : (l.set i (l.get ⟨i + 1, h2⟩)).take (i + 1) =
        l.take i ++ [l.get ⟨i + 1, h2⟩] := by
      rw [List.set_eq_take_append_cons_drop, if_pos h]
      rw [List.take_append_eq_append_take]
      have hti : (l.take i).length = i := by
        rw [List.length_take]; omega
      rw [hti]
      simp
    rw [hd1, hd2, ht]
    rw [List.drop_eq_getElem_cons h2, List.get_eq_getElem]
    simp
  · rw [dif_neg h2]
    have hlen : l.length = i + 1 := by omega
    have hd : l.drop (i + 1) = [] := List.drop_eq_nil_of_le (by omega)
    have hi : l.length - 1 = i := by omega
    rw [hd, hi]
    simp
termination_by l.length - i
decreasing_by simp [List.length_set]; omega

theorem removeLoop_dropLast (l : List Todo) (i : Nat) (h : i < l.length) :
    (removeLoop l i).dropLast = l.eraseIdx i := by
  rw [removeLoop_eq l i h, List.eraseIdx_eq_take_drop_succ]
  have h1 : (l.drop (l.length - 1)).length = 1 := by
    rw [List.length_drop]; omega
  obtain ⟨a, ha⟩ := List.length_eq_one.mp h1
  rw [ha, List.dropLast_concat]

theorem removeLoopIters_eq (l : List Todo) (i : Nat) :
    removeLoopIters l i = l.length - 1 - i := by
  rw [removeLoopIters]
  by_cases h : i + 1 < l.length
  · rw [dif_pos h,
      removeLoopIters_eq (l.set i (l.get ⟨i + 1, h⟩)) (i + 1)]
    simp only [List.length_set]
    omega
  · rw [dif_neg h]
    omega
termination_by l.length - i
decreasing_by simp [List.length_set]; omega

/-! ### Claim theorems -/

/-- C5: in every state, for every string `text` (the empty string
included), `addTodo` succeeds: it appends the entry `{text, false}` at
position `count` (the new tail), increments the count by one, and emits
a `TodoAdded` event carrying the new position and the text. -/
theorem addTodo_spec (s : ContractState) (text : String) :
    getTodos (addTodo s text) = getTodos s ++ [⟨text, false⟩] ∧
    getTodoCount (addTodo s text) = getTodoCount s + 1 ∧
    (getTodos (addTodo s text))[getTodoCount s]? = some ⟨text, false⟩ ∧
    (addTodo s text).events = s.events ++ [Event.TodoAdded (getTodoCount s) text] := by
  refine ⟨rfl, ?_, ?_, ?_⟩
  · simp [addTodo, getTodoCount]
  · simp [addTodo, getTodos, getTodoCount, List.getElem?_append]
  · simp [addTodo, getTodoCount]

/-- C2: in every state, `toggleTodo p` and `removeTodo p` for an
out-of-range position `p ≥ count` revert with the out-of-range message,
and the reverted call leaves the whole state — `getTodoCount`,
`getTodos`, and the event log — unchanged.  (Positions are `uint256`,
so `p < 0` is not representable; the nonnegative out-of-range cases are
exactly `p ≥ count`.) -/
theorem outOfRange_rejection (s : ContractState) (p : Nat)
    (h : getTodoCount s ≤ p) :
    toggleTodo s p = Except.error outOfRangeMsg ∧
    removeTodo s p = Except.error outOfRangeMsg ∧
    applyOp s (Op.toggle p) = s ∧
    applyOp s (Op.remove p) = s := by
  have h1 : ¬ p < s.todos.length := by
    simp only [getTodoCount] at h
    omega
  refine ⟨?_, ?_, ?_, ?_⟩ <;>
    simp [toggleTodo, removeTodo, applyOp, h1]

/-- Witness for C2 at the concrete state `execOps [Op.add "a"]`
(count 1) and position 5, as in the spec's example scenario. -/
theorem outOfRange_rejection_witness :
    toggleTodo (execOps [Op.add "a"]) 5 = Except.error outOfRangeMsg ∧
    removeTodo (execOps [Op.add "a"]) 5 = Except.error outOfRangeMsg ∧
    applyOp (execOps [Op.add "a"]) (Op.toggle 5) = execOps [Op.add "a"] ∧
    applyOp (execOps [Op.add "a"]) (Op.remove 5) = execOps [Op.add "a"] :=
  outOfRange_rejection (execOps [Op.add "a"]) 5 (by decide)

/-- Structure eta for `Todo`, convenient in `simp` sets. -/
theorem Todo.mk_eta (t : Todo) : (⟨t.text, t.completed⟩ : Todo) = t := rfl

/-- C4: in every state, for every valid position `p`, `toggleTodo p`
succeeds (its ok-state is `applyOp s (Op.toggle p)`), a single call
replaces the completed flag of the entry at `p` by its boolean negation
(text unchanged), and a second call at `p` restores the entry — in
particular its completed flag — to its original value. -/
theorem toggle_involution (s : ContractState) (p : Nat)
    (h : p < getTodoCount s) :
    toggleTodo s p = Except.ok (applyOp s (Op.toggle p)) ∧
    (getTodos (applyOp s (Op.toggle p)))[p]? =
      ((getTodos s)[p]?).map (fun t => ⟨t.text, !t.completed⟩) ∧
    (getTodos (applyOp (applyOp s (Op.toggle p)) (Op.toggle p)))[p]? =
      (getTodos s)[p]? := by
  have hp : p < s.todos.length := h
  refine ⟨?_, ?_, ?_⟩
  · simp [applyOp, toggleTodo, hp]
  · simp [applyOp, toggleTodo, hp, getTodos,
      List.getElem?_set_self hp, List.getElem?_eq_getElem hp,
      List.get_eq_getElem]
  · simp [applyOp, toggleTodo, hp, getTodos,
      List.get_eq_getElem, List.getElem_set_self, List.set_set,
      List.getElem?_set_self hp, List.getElem?_eq_getElem hp,
      Bool.not_not, Todo.mk_eta]

/-- Witness for C4 at the concrete state `execOps [Op.add "a"]`,
position 0. -/
theorem toggle_involution_witness :
    toggleTodo (execOps [Op.add "a"]) 0 =
      Except.ok (applyOp (execOps [Op.add "a"]) (Op.toggle 0)) ∧
    (getTodos (applyOp (execOps [Op.add "a"]) (Op.toggle 0)))[0]? =
      ((getTodos (execOps [Op.add "a"]))[0]?).map
        (fun t => ⟨t.text, !t.completed⟩) ∧
    (getTodos (applyOp (applyOp (execOps [Op.add "a"]) (Op.toggle 0))
        (Op.toggle 0)))[0]? =
      (getTodos (execOps [Op.add "a"]))[0]? :=
  toggle_involution (execOps [Op.add "a"]) 0 (by decide)

/-- C10: in every state, for every valid position `p`, `toggleTodo p`
succeeds and mutates nothing except the completed flag of the entry at
`p`: the count is unchanged, every entry at a position other than `p`
is unchanged, the entry at `p` keeps its text and gets its completed
flag negated, and exactly one event — the `TodoToggled` event with the
resulting flag — is appended to the event log. -/
theorem toggle_frame (s : ContractState) (p : Nat)
    (h : p < getTodoCount s) :
    toggleTodo s p = Except.ok (applyOp s (Op.toggle p)) ∧
    getTodoCount (applyOp s (Op.toggle p)) = getTodoCount s ∧
    (∀ q, q ≠ p → (getTodos (applyOp s (Op.toggle p)))[q]? = (getTodos s)[q]?) ∧
    (getTodos (applyOp s (Op.toggle p)))[p]? =
      ((getTodos s)[p]?).map (fun t => ⟨t.text, !t.completed⟩) ∧
    (applyOp s (Op.toggle p)).events =
      s.events ++ [Event.TodoToggled p (!((getTodos s).get ⟨p, h⟩).completed)] := by
  have hp : p < s.todos.length := h
  refine ⟨?_, ?_, ?_, ?_, ?_⟩
  · simp [applyOp, toggleTodo, hp]
  · simp [applyOp, toggleTodo, hp, getTodoCount]
  · intro q hq
    simp [applyOp, toggleTodo, hp, getTodos, List.getElem?_set]
    intro h2
    exact absurd h2.symm hq
  · simp [applyOp, toggleTodo, hp, getTodos,
      List.getElem?_set_self hp, List.getElem?_eq_getElem hp,
      List.get_eq_getElem]
  · simp [applyOp, toggleTodo, hp, getTodos, List.get_eq_getElem]

/-- Witness for C10 at the concrete state `execOps [Op.add "a", Op.add "b"]`,
position 1. -/
theorem toggle_frame_witness :
    toggleTodo (execOps [Op.add "a", Op.add "b"]) 1 =
      Except.ok (applyOp (execOps [Op.add "a", Op.add "b"]) (Op.toggle 1)) ∧
    getTodoCount (applyOp (execOps [Op.add "a", Op.add "b"]) (Op.toggle 1)) =
      getTodoCount (execOps [Op.add "a", Op.add "b"]) ∧
    (∀ q, q ≠ 1 →
      (getTodos (applyOp (execOps [Op.add "a", Op.add "b"]) (Op.toggle 1)))[q]? =
        (getTodos (execOps [Op.add "a", Op.add "b"]))[q]?) ∧
    (getTodos (applyOp (execOps [Op.add "a", Op.add "b"]) (Op.toggle 1)))[1]? =
      ((getTodos (execOps [Op.add "a", Op.add "b"]))[1]?).map
        (fun t => ⟨t.text, !t.completed⟩) ∧
    (applyOp (execOps [Op.add "a", Op.add "b"]) (Op.toggle 1)).events =
      (execOps [Op.add "a", Op.add "b"]).events ++
        [Event.TodoToggled 1
          (!((getTodos (execOps [Op.add "a", Op.add "b"])).get
            ⟨1, by decide⟩).completed)] :=
  toggle_frame (execOps [Op.add "a", Op.add "b"]) 1 (by decide)

/-- C3: in every state, for every valid position `p`, `removeTodo p`
succeeds, the resulting sequence is the old one with the entry at `p`
deleted and all later entries shifted one slot toward the front (order
preserved), the count drops by exactly 1, entries below `p` are
unchanged, every entry formerly at a position `q > p` is now at `q - 1`,
and a `TodoRemoved` event carrying the pre-shift position is emitted. -/
theorem remove_compaction (s : ContractState) (p : Nat)
    (h : p < getTodoCount s) :
    removeTodo s p = Except.ok (applyOp s (Op.remove p)) ∧
    getTodos (applyOp s (Op.remove p)) =
      (getTodos s).take p ++ (getTodos s).drop (p + 1) ∧
    getTodoCount (applyOp s (Op.remove p)) = getTodoCount s - 1 ∧
    (∀ q, q < p → (getTodos (applyOp s (Op.remove p)))[q]? = (getTodos s)[q]?) ∧
    (∀ q, p < q → q < getTodoCount s →
      (getTodos (applyOp s (Op.remove p)))[q - 1]? = (getTodos s)[q]?) ∧
    (applyOp s (Op.remove p)).events = s.events ++ [Event.TodoRemoved p] := by
  have hp : p < s.todos.length := h
  have hT : getTodos (applyOp s (Op.remove p)) =
      (getTodos s).take p ++ (getTodos s).drop (p + 1) := by
    simp only [applyOp, removeTodo, if_pos hp, getTodos]
    rw [removeLoop_dropLast s.todos p hp, List.eraseIdx_eq_take_drop_succ]
  have htake : ((getTodos s).take p).length = p := by
    simp only [getTodos, List.length_take]
    omega
  refine ⟨?_, hT, ?_, ?_, ?_, ?_⟩
  · simp [applyOp, removeTodo, hp]
  · show (getTodos (applyOp s (Op.remove p))).length = getTodoCount s - 1
    rw [hT]
    simp only [List.length_append, List.length_take, List.length_drop,
      getTodos, getTodoCount]
    omega
  · intro q hq
    rw [hT, List.getElem?_append, htake, if_pos (by omega),
      List.getElem?_take, if_pos hq]
  · intro q hq1 hq2
    rw [hT, List.getElem?_append, htake, if_neg (by omega),
      List.getElem?_drop]
    have hidx : p + 1 + (q - 1 - p) = q := by omega
    rw [hidx]
  · simp [applyOp, removeTodo, hp]

/-- Witness for C3 at the concrete state `execOps [Op.add "a", Op.add "b"]`,
position 0, as in the spec's example scenario. -/
theorem remove_compaction_witness :
    removeTodo (execOps [Op.add "a", Op.add "b"]) 0 =
      Except.ok (applyOp (execOps [Op.add "a", Op.add "b"]) (Op.remove 0)) ∧
    getTodos (applyOp (execOps [Op.add "a", Op.add "b"]) (Op.remove 0)) =
      (getTodos (execOps [Op.add "a", Op.add "b"])).take 0 ++
        (getTodos (execOps [Op.add "a", Op.add "b"])).drop 1 ∧
    getTodoCount (applyOp (execOps [Op.add "a", Op.add "b"]) (Op.remove 0)) =
      getTodoCount (execOps [Op.add "a", Op.add "b"]) - 1 ∧
    (∀ q, q < 0 →
      (getTodos (applyOp (execOps [Op.add "a", Op.add "b"]) (Op.remove 0)))[q]? =
        (getTodos (execOps [Op.add "a", Op.add "b"]))[q]?) ∧
    (∀ q, 0 < q → q < getTodoCount (execOps [Op.add "a", Op.add "b"]) →
      (getTodos (applyOp (execOps [Op.add "a", Op.add "b"]) (Op.remove 0)))[q - 1]? =
        (getTodos (execOps [Op.add "a", Op.add "b"]))[q]?) ∧
    (applyOp (execOps [Op.add "a", Op.add "b"]) (Op.remove 0)).events =
      (execOps [Op.add "a", Op.add "b"]).events ++ [Event.TodoRemoved 0] :=
  remove_compaction (execOps [Op.add "a", Op.add "b"]) 0 (by decide)

/-- The call-return data of `addTodo`: the Solidity signature
`function addTodo(string memory _text) public` declares no `returns`
clause, so a call to it returns no data. -/
def addTodoReturn (_s : ContractState) (_text : String) : Unit := ()

/-- C7 counterexample: `addTodo` declares no return value, so the call
cannot return the new entry's position to the caller: two concrete
calls whose claimed return values would be 0 and 1 return identical
(empty) data. -/
theorem addTodo_return_counterexample :
    addTodoReturn initialState "a" =
      addTodoReturn (addTodo initialState "a") "b" ∧
    getTodoCount initialState ≠ getTodoCount (addTodo initialState "a") :=
  ⟨rfl, by decide⟩

/-- C7 amended: `addTodo` returns no value; the new entry's position —
the pre-call count — reaches the caller only through the emitted
`TodoAdded` event. -/
theorem addTodo_position_in_event (s : ContractState) (text : String) :
    addTodoReturn s text = () ∧
    (addTodo s text).events =
      s.events ++ [Event.TodoAdded (getTodoCount s) text] := by
  refine ⟨rfl, ?_⟩
  simp [addTodo, getTodoCount]

/-- Helper: running only `addTodo` calls appends the corresponding
fresh entries, in order, to any starting state. -/
theorem foldl_add_ops (texts : List String) (s : ContractState) :
    ((texts.map Op.add).foldl applyOp s).todos =
      s.todos ++ texts.map (fun t => ⟨t, false⟩) := by
  induction texts generalizing s with
  | nil => simp
  | cons t ts ih =>
    simp only [List.map_cons, List.foldl_cons, applyOp, addTodo]
    rw [ih]
    simp

/-- C6: for every sequence of N `addTodo` calls from the empty store,
the count is N and `getTodos` returns the N entries in append order,
each with `completed = false`. -/
theorem append_monotonicity (texts : List String) :
    getTodoCount (execOps (texts.map Op.add)) = texts.length ∧
    getTodos (execOps (texts.map Op.add)) =
      texts.map (fun t => ⟨t, false⟩) ∧
    ∀ td ∈ getTodos (execOps (texts.map Op.add)), td.completed = false := by
  have hT : getTodos (execOps (texts.map Op.add)) =
      texts.map (fun t => ⟨t, false⟩) := by
    show ((texts.map Op.add).foldl applyOp initialState).todos = _
    rw [foldl_add_ops]
    rfl
  refine ⟨?_, hT, ?_⟩
  · show (getTodos (execOps (texts.map Op.add))).length = texts.length
    rw [hT]
    simp
  · rw [hT]
    intro td htd
    obtain ⟨t, ht1, ht2⟩ := List.mem_map.mp htd
    rw [← ht2]

/-- C8: in every state reachable from the empty store, the count equals
the number of entries returned by `getTodos` (it is read off the
sequence itself, `todos.length`, never stored independently), and the
occupied positions are exactly the contiguous integers `0..count-1`. -/
theorem positions_contiguous (ops : List Op) :
    getTodoCount (execOps ops) = (getTodos (execOps ops)).length ∧
    ∀ q, ((getTodos (execOps ops))[q]?).isSome = true ↔
      q < getTodoCount (execOps ops) := by
  refine ⟨rfl, ?_⟩
  intro q
  constructor
  · intro hq
    by_contra h2
    have h3 : (getTodos (execOps ops)).length ≤ q := by
      simp only [getTodoCount, getTodos] at h2 ⊢
      omega
    rw [List.getElem?_eq_none h3] at hq
    simp at hq
  · intro hq
    have hq2 : q < (getTodos (execOps ops)).length := hq
    rw [List.getElem?_eq_getElem hq2]
    rfl

/-- C9: every operation is a finite terminating computation; in
particular the shifting loop of `removeTodo` (a total function in this
embedding) performs exactly `count - 1 - position` iterations, so under
the precondition `position < count` it terminates after finitely many
steps bounded by the count. -/
theorem remove_loop_iteration_count (s : ContractState) (p : Nat) :
    removeLoopIters (getTodos s) p = getTodoCount s - 1 - p :=
  removeLoopIters_eq s.todos p

/-- Replaying one more event: `replay` peels off the last event of the
log. -/
theorem replay_append_one (evs : List Event) (e : Event) :
    replay (evs ++ [e]) = replayEvent (replay evs) e := by
  simp [replay, List.foldl_concat]

/-- One step of the simulation: if the replayed log matches the stored
sequence, it still does after any single call. -/
theorem replay_applyOp (s : ContractState) (op : Op)
    (h : replay s.events = s.todos) :
    replay (applyOp s op).events = (applyOp s op).todos := by
  cases op with
  | add t =>
    simp only [applyOp, addTodo]
    rw [replay_append_one, h]
    simp [replayEvent]
  | toggle i =>
    by_cases hi : i < s.todos.length
    · simp only [applyOp, toggleTodo, dif_pos hi]
      rw [replay_append_one, h]
      simp [replayEvent, List.get?_eq_getElem?, List.getElem?_eq_getElem hi,
        List.get_eq_getElem]
    · simp [applyOp, toggleTodo, hi, h]
  | remove i =>
    by_cases hi : i < s.todos.length
    · simp only [applyOp, removeTodo, if_pos hi]
      rw [replay_append_one, h]
      rw [removeLoop_dropLast s.todos i hi]
      simp [replayEvent]
    · simp [applyOp, removeTodo, hi, h]

/-- C1: for every sequence of calls from the empty store, replaying the
emitted event log in order — per the spec's replay rules in
`replayEvent` — reconstructs exactly the final entry sequence returned
by `getTodos`. -/
theorem event_fidelity (ops : List Op) :
    replay (execOps ops).events = getTodos (execOps ops) := by
  suffices hstep : ∀ s : ContractState, replay s.events = s.todos →
      replay (ops.foldl applyOp s).events = (ops.foldl applyOp s).todos by
    exact hstep initialState rfl
  induction ops with
  | nil =>
    intro s hs
    exact hs
  | cons op rest ih =>
    intro s hs
    exact ih (applyOp s op) (replay_applyOp s op hs)
